import Mathlib

/-!
Heap-Management: a shallow embedding of `malloc.c`.

The allocator keeps one process-wide chain of block headers inside a
contiguous arena obtained with `sbrk`.  The embedding below follows
`malloc.c` statement by statement.

Modelling conventions
* A pointer is a natural number; `0` is `NULL`.
* `size_t` and pointers are 64 bits wide: every `size_t` computation, the
  address computed by the split of `malloc` and the address computed by
  `BLOCK_HEADER` are reduced modulo `2 ^ 64`.
* `sizeof(struct _block)` depends on the ABI and is the parameter `h` of the
  operations (`32` on LP64: three 8-byte words, the flag and padding).
* The statistics counters are C `int`s.  An `int` that receives a `size_t`
  value is reduced to 32 bits (`toInt`); `++` and `--` are plain integer
  steps (their overflow is undefined in C).
* Memory holds one header record per address: `mem a` is the header read at
  address `a`, and a store to a field of the header at `a` changes that record
  only.  Reading is exact.  A store is exact as long as the headers that are
  written lie at least `sizeof(struct _block)` bytes apart: two headers that
  overlap share bytes (on LP64 the flag `free` of the header at `a` is the
  lowest byte of the `size` of a header at `a + 24`), and this sharing is not
  represented.  Every address can be read and written: a store outside the
  mapped data segment, which ends the real process with a signal, is not
  represented either.  The theorems below that run stores on general states
  conclude on return values, counters and the program break only; the
  theorems about header contents evaluate concrete call sequences whose
  headers are equal or at least `h` bytes apart and lie inside the arena.
* `sbrk` is modelled for increments below `2 ^ 63`, the non-negative values
  of its parameter type `intptr_t`.
* A `while` loop over the chain takes a fuel argument; running out of fuel
  is the fault `outOfFuel`, a failed `assert` is the fault `assertFailed`.
-/

namespace HeapManagement

/-- The header `struct _block`.  The field `prev` is declared by the source
but no function reads or writes it. -/
structure Block where
  size : Nat
  prev : Nat
  next : Nat
  free : Bool
deriving DecidableEq

/-- The placement strategy chosen at build time (`FIT`, `BEST`, `WORST`,
`NEXT`). -/
inductive Policy where
  | firstFit
  | bestFit
  | worstFit
  | nextFit
deriving DecidableEq

/-- The ways a call can fail to return. -/
inductive Fault where
  | assertFailed
  | outOfFuel
deriving DecidableEq

/-- The file-scope variables of `malloc.c`, the header memory, and the state
of the operating system's data segment (`brk` is the current program break,
`limit` the highest break the system grants). -/
structure Heap where
  mem : Nat → Block
  freeList : Nat
  Next_Fit : Nat
  brk : Nat
  limit : Nat
  atexit_registered : Int
  num_mallocs : Int
  num_frees : Int
  num_reuses : Int
  num_grows : Int
  num_splits : Int
  num_coalesces : Int
  num_blocks : Int
  num_requested : Int
  max_heap : Int

/-- Number of values of `size_t`, that is `2 ^ 64`. -/
def SIZE_MOD : Nat := 18446744073709551616

/-- The value `(void *)-1`, the failure sentinel of `sbrk`: `2 ^ 64 - 1`. -/
def SBRK_FAILED : Nat := 18446744073709551615

/-- The constant `INT_MAX` converted to `size_t`: `2 ^ 31 - 1`. -/
def INT_MAX_SZ : Nat := 2147483647

/-- The constant `INT_MIN` converted to `size_t`: `2 ^ 64 - 2 ^ 31`. -/
def INT_MIN_SZ : Nat := 18446744071562067968

/-- Conversion of an integer value to a 32-bit C `int`: the representative of
`x` modulo `2 ^ 32` in the range from `-2 ^ 31` to `2 ^ 31 - 1`. -/
def toInt (x : Int) : Int := (x + 2147483648) % 4294967296 - 2147483648

/-- Conversion of an integer value to `size_t`: `x` modulo `2 ^ 64`. -/
def toSize (x : Int) : Nat := (x % 18446744073709551616).toNat

/-- The macro `ALIGN4(s) = (((((s) - 1) >> 2) << 2) + 4)` on `size_t`. -/
def ALIGN4 (s : Nat) : Nat :=
  (((s + SIZE_MOD - 1) % SIZE_MOD) / 4 * 4 % SIZE_MOD + 4) % SIZE_MOD

/-- The macro `BLOCK_DATA(b) = (b) + 1`, in bytes. -/
def BLOCK_DATA (h b : Nat) : Nat := b + h

/-- The macro `BLOCK_HEADER(ptr) = (struct _block *)(ptr) - 1`, in bytes: the
address `ptr - h` modulo `2 ^ 64`. -/
def BLOCK_HEADER (h ptr : Nat) : Nat := toSize ((ptr : Int) - (h : Int))

/-- Store to `p->size`. -/
def setSize (m : Nat → Block) (p v : Nat) : Nat → Block :=
  fun a => if a = p then { m a with size := v } else m a

/-- Store to `p->next`. -/
def setNext (m : Nat → Block) (p v : Nat) : Nat → Block :=
  fun a => if a = p then { m a with next := v } else m a

/-- Store to `p->free`. -/
def setFree (m : Nat → Block) (p : Nat) (v : Bool) : Nat → Block :=
  fun a => if a = p then { m a with free := v } else m a

/-- The system call `sbrk(inc)` for a non-negative increment: on success the
break moves up by `inc` and the previous break is returned; when the system
cannot extend the segment the break stays and `(void *)-1` is returned.
(An argument of `2 ^ 63` or more is a negative `intptr_t`, a request to lower
the break; here it is an increment that no `limit` below `2 ^ 63` grants.) -/
def sbrk (inc : Nat) (s : Heap) : Nat × Heap :=
  if s.brk + inc ≤ s.limit then (s.brk, { s with brk := s.brk + inc })
  else (SBRK_FAILED, s)

/-- The first-fit loop
`while (curr && !(curr->free && curr->size >= size)) { *last = curr; curr = curr->next; }`.
Returns `(*last, curr)`. -/
def firstFitLoop (m : Nat → Block) (size : Nat) : Nat → Nat → Nat → Except Fault (Nat × Nat)
  | 0, _, _ => .error .outOfFuel
  | fuel + 1, last, curr =>
    if curr ≠ 0 ∧ ¬ ((m curr).free = true ∧ (m curr).size ≥ size) then
      firstFitLoop m size fuel curr (m curr).next
    else .ok (last, curr)

/-- The best-fit loop; the arguments after the fuel are `*last`, `s`, `winner`
and `curr`.  Returns `(*last, winner)`. -/
def bestFitLoop (m : Nat → Block) (size : Nat) :
    Nat → Nat → Nat → Nat → Nat → Except Fault (Nat × Nat)
  | 0, _, _, _, _ => .error .outOfFuel
  | fuel + 1, last, s, winner, curr =>
    if curr ≠ 0 then
      let last := curr
      let s := if s ≥ (m curr).size then (m curr).size else s
      let winner :=
        if ((m curr).free = true ∧ (m curr).size ≥ size) ∧ s ≤ (m curr).size then curr
        else winner
      bestFitLoop m size fuel last s winner (m curr).next
    else .ok (last, winner)

/-- The worst-fit loop; the arguments after the fuel are `*last`, `s`,
`winner` and `curr`.  Returns `(*last, winner)`. -/
def worstFitLoop (m : Nat → Block) (size : Nat) :
    Nat → Nat → Nat → Nat → Nat → Except Fault (Nat × Nat)
  | 0, _, _, _, _ => .error .outOfFuel
  | fuel + 1, last, s, winner, curr =>
    if curr ≠ 0 then
      let s := if s ≤ (m curr).size then (m curr).size else s
      if ((m curr).free = true ∧ (m curr).size ≥ size) ∧ s ≥ (m curr).size then
        worstFitLoop m size fuel curr s curr (m curr).next
      else worstFitLoop m size fuel last s winner (m curr).next
    else .ok (last, winner)

/-- The function `findFreeBlock(&last, size)` under the given policy.
Returns `(*last, result, state)`; only next-fit changes the state (its
cursor `Next_Fit`). -/
def findFreeBlock (pol : Policy) (fuel last size : Nat) (s : Heap) :
    Except Fault (Nat × Nat × Heap) :=
  let curr := s.freeList
  match pol with
  | .firstFit =>
    match firstFitLoop s.mem size fuel last curr with
    | .ok (last, curr) => .ok (last, curr, s)
    | .error e => .error e
  | .bestFit =>
    let s0 := if curr ≠ 0 then (s.mem curr).size else INT_MAX_SZ
    match bestFitLoop s.mem size fuel last s0 0 curr with
    | .ok (last, winner) => .ok (last, winner, s)
    | .error e => .error e
  | .worstFit =>
    let s0 := if curr ≠ 0 then (s.mem curr).size else INT_MIN_SZ
    match worstFitLoop s.mem size fuel last s0 0 curr with
    | .ok (last, winner) => .ok (last, winner, s)
    | .error e => .error e
  | .nextFit =>
    let nf := if s.Next_Fit = 0 then curr else s.Next_Fit
    match firstFitLoop s.mem size fuel last nf with
    | .ok (last, nf) => .ok (last, nf, { s with Next_Fit := nf })
    | .error e => .error e

/-- The function `growHeap(last, size)`.  Returns the new block (or `NULL`)
and the new state. -/
def growHeap (h last size : Nat) (s : Heap) : Except Fault (Nat × Heap) :=
  let (curr, s) := sbrk 0 s
  let (prev, s) := sbrk ((h + size) % SIZE_MOD) s
  if curr ≠ prev then .error .assertFailed
  else if curr = SBRK_FAILED then .ok (0, s)
  else
    let s := { s with freeList := if s.freeList = 0 then curr else s.freeList }
    let s := { s with mem := if last ≠ 0 then setNext s.mem last curr else s.mem }
    let s := { s with max_heap := toInt (s.max_heap + size) }
    let s := { s with num_blocks := s.num_blocks + 1 }
    let s := { s with num_grows := s.num_grows + 1 }
    let s := { s with mem := setSize s.mem curr size }
    let s := { s with mem := setNext s.mem curr 0 }
    let s := { s with mem := setFree s.mem curr false }
    .ok (curr, s)

/-- The split block of `malloc` (the body of
`if ((next) && ((next->size - size) > sizeof(struct _block)))`).  The address
of the remainder header is computed from `next->size` before that field is
lowered to `size`. -/
def splitBlock (h next size : Nat) (s : Heap) : Heap :=
  let original_next := (s.mem next).next
  let old_size : Int := toInt (s.mem next).size
  let ptr := (next + (s.mem next).size + h) % SIZE_MOD
  let s := { s with mem := setNext s.mem next ptr }
  let s := { s with mem := setSize s.mem next size }
  let s := { s with mem := setSize s.mem (s.mem next).next
                      (toSize (old_size - (s.mem next).size - h)) }
  let s := { s with mem := setNext s.mem (s.mem next).next original_next }
  let s := { s with mem := setFree s.mem (s.mem next).next true }
  let s := { s with num_splits := s.num_splits + 1 }
  { s with num_blocks := s.num_blocks + 1 }

/-- The function `malloc(size)`.  Returns the pointer handed to the caller
(`0` for `NULL`) and the new state. -/
def malloc (h : Nat) (pol : Policy) (fuel size : Nat) (s : Heap) : Except Fault (Nat × Heap) :=
  let s := { s with atexit_registered := if s.atexit_registered = 0 then 1
                                         else s.atexit_registered }
  let size := ALIGN4 size
  if size = 0 then .ok (0, s)
  else
    let s := { s with num_requested := toInt (s.num_requested + size) }
    let last := s.freeList
    match findFreeBlock pol fuel last size s with
    | .error e => .error e
    | .ok (last, next, s) =>
      let s := { s with num_reuses := if next ≠ 0 then s.num_reuses + 1 else s.num_reuses }
      let s :=
        if next ≠ 0 ∧ ((s.mem next).size + SIZE_MOD - size) % SIZE_MOD > h then
          splitBlock h next size s
        else s
      match (if next = 0 then growHeap h last size s else .ok (next, s)) with
      | .error e => .error e
      | .ok (next, s) =>
        if next = 0 then .ok (0, s)
        else
          let s := { s with mem := setFree s.mem next false }
          let s := { s with num_mallocs := s.num_mallocs + 1 }
          .ok (BLOCK_DATA h next, s)

/-- The coalescing loop of `free`,
`while (curr && curr->next && (temp != curr->next))`; the arguments after the
fuel are `temp` and `curr`. -/
def coalesceLoop (h : Nat) : Nat → Nat → Nat → Heap → Except Fault Heap
  | 0, _, _, _ => .error .outOfFuel
  | fuel + 1, temp, curr, s =>
    if curr ≠ 0 ∧ (s.mem curr).next ≠ 0 ∧ temp ≠ (s.mem curr).next then
      let temp := (s.mem curr).next
      if (s.mem curr).free = true ∧ (s.mem temp).free = true then
        let s := { s with mem := setSize s.mem curr
                            (((s.mem curr).size + (s.mem temp).size + h) % SIZE_MOD) }
        let s := { s with mem := setNext s.mem curr (s.mem temp).next }
        let s := { s with num_coalesces := s.num_coalesces + 1 }
        let s := { s with num_blocks := s.num_blocks - 1 }
        coalesceLoop h fuel temp curr s
      else coalesceLoop h fuel temp (s.mem curr).next s
    else .ok s

/-- The function `free(ptr)`. -/
def free (h fuel ptr : Nat) (s : Heap) : Except Fault Heap :=
  if ptr = 0 then .ok s
  else
    let curr := BLOCK_HEADER h ptr
    if (s.mem curr).free ≠ false then .error .assertFailed
    else
      let s := { s with mem := setFree s.mem curr true }
      let s := { s with num_frees := s.num_frees + 1 }
      let curr := if s.freeList ≠ 0 then s.freeList else curr
      coalesceLoop h fuel 0 curr s

/-- How a call ends, with the state of the allocator at that moment: at the
`return`, or at the `assert` that fails (the state an aborted process is left
in). -/
inductive Outcome where
  | returned (s : Heap)
  | aborted (s : Heap)
  | outOfFuel

/-- The result of a call without the state of an aborted process. -/
def Outcome.toExcept : Outcome → Except Fault Heap
  | .returned s => .ok s
  | .aborted _ => .error .assertFailed
  | .outOfFuel => .error .outOfFuel

/-- The function `free(ptr)` once more, statement by statement, keeping the
state in which a failing `assert` is reached.  (The coalescing loop contains
no `assert`.) -/
def freeOutcome (h fuel ptr : Nat) (s : Heap) : Outcome :=
  if ptr = 0 then .returned s
  else
    let curr := BLOCK_HEADER h ptr
    if (s.mem curr).free ≠ false then .aborted s
    else
      let s := { s with mem := setFree s.mem curr true }
      let s := { s with num_frees := s.num_frees + 1 }
      let curr := if s.freeList ≠ 0 then s.freeList else curr
      match coalesceLoop h fuel 0 curr s with
      | .ok s1 => .returned s1
      | .error .assertFailed => .aborted s
      | .error .outOfFuel => .outOfFuel

/-- The state before the first call: no block, every counter zero, the
program break at `brk0`. -/
def emptyHeap (brk0 limit : Nat) : Heap :=
  { mem := fun _ => ⟨0, 0, 0, false⟩
    freeList := 0
    Next_Fit := 0
    brk := brk0
    limit := limit
    atexit_registered := 0
    num_mallocs := 0
    num_frees := 0
    num_reuses := 0
    num_grows := 0
    num_splits := 0
    num_coalesces := 0
    num_blocks := 0
    num_requested := 0
    max_heap := 0 }

/-- The list `l` is the chain walked from `p`: its addresses are not `NULL`,
each one's `next` is the following one, and the last one's `next` is `NULL`. -/
def IsChain (m : Nat → Block) : Nat → List Nat → Prop
  | p, [] => p = 0
  | p, a :: l => p = a ∧ a ≠ 0 ∧ IsChain m (m a).next l

/-- A block that the search may return: free and large enough. -/
def Fits (m : Nat → Block) (size a : Nat) : Prop :=
  (m a).free = true ∧ size ≤ (m a).size

instance (m : Nat → Block) (size a : Nat) : Decidable (Fits m size a) := by
  unfold Fits; infer_instance

/-- Being the chain walked from `p` is decidable: walk the list. -/
instance decIsChain (m : Nat → Block) : (l : List Nat) → (p : Nat) → Decidable (IsChain m p l)
  | [], p => inferInstanceAs (Decidable (p = 0))
  | a :: l, p =>
    have := decIsChain m l (m a).next
    inferInstanceAs (Decidable (p = a ∧ a ≠ 0 ∧ IsChain m (m a).next l))

/-- One call of the public interface. -/
inductive Call where
  | malloc (n : Nat)
  | free (p : Nat)

/-- A sequence of calls run one after the other; the pointers `malloc` returns
are dropped, the caller passes to `free` the addresses it was given. -/
def run (h : Nat) (pol : Policy) (fuel : Nat) : List Call → Heap → Except Fault Heap
  | [], s => .ok s
  | .malloc n :: cs, s =>
    match malloc h pol fuel n s with
    | .ok (_, s) => run h pol fuel cs s
    | .error e => .error e
  | .free p :: cs, s =>
    match free h fuel p s with
    | .ok s => run h pol fuel cs s
    | .error e => .error e

/-- A three-block arena with 32-byte headers: a free block of 8 bytes at 4096,
an allocated block of 8 bytes at 4136 and a free block of 100 bytes at 4176. -/
def sampleHeap : Heap :=
  { emptyHeap 4308 65536 with
    mem := fun a =>
      if a = 4096 then ⟨8, 0, 4136, true⟩
      else if a = 4136 then ⟨8, 0, 4176, false⟩
      else if a = 4176 then ⟨100, 0, 0, true⟩
      else ⟨0, 0, 0, false⟩
    freeList := 4096
    num_blocks := 3
    num_grows := 3 }

/-- The three-block arena of `sampleHeap` with its last block allocated as
well and the next-fit cursor at the middle block 4136. -/
def cursorHeap : Heap :=
  { sampleHeap with
    mem := fun a =>
      if a = 4096 then ⟨8, 0, 4136, true⟩
      else if a = 4136 then ⟨8, 0, 4176, false⟩
      else if a = 4176 then ⟨100, 0, 0, false⟩
      else ⟨0, 0, 0, false⟩
    Next_Fit := 4136 }


/-! Chains. -/

theorem isChain_ne_zero {m : Nat → Block} {p : Nat} {l : List Nat}
    (hc : IsChain m p l) : ∀ b ∈ l, b ≠ 0 := by
  induction l generalizing p with
  | nil => intro b hb; cases hb
  | cons a t ih =>
    obtain ⟨_, ha, ht⟩ := hc
    intro b hb
    rcases List.mem_cons.1 hb with rfl | hb
    · exact ha
    · exact ih ht b hb

theorem isChain_suffix {m : Nat → Block} {p : Nat} {l : List Nat}
    (hc : IsChain m p l) {x : Nat} (hx : x ∈ l) :
    ∃ l1 l2, l = l1 ++ x :: l2 ∧ IsChain m x (x :: l2) := by
  induction l generalizing p with
  | nil => cases hx
  | cons a t ih =>
    obtain ⟨hp, ha, ht⟩ := hc
    by_cases hxa : x = a
    · subst hxa
      exact ⟨[], t, rfl, rfl, ha, ht⟩
    · rcases List.mem_cons.1 hx with h | h
      · exact absurd h hxa
      · obtain ⟨l1, l2, hl, hc2⟩ := ih ht h
        exact ⟨a :: l1, l2, by rw [hl]; rfl, hc2⟩

theorem firstFitLoop_chain (m : Nat → Block) (size : Nat) :
    ∀ (l : List Nat) (fuel last p : Nat), IsChain m p l → l.length < fuel →
      ∃ last1 curr, firstFitLoop m size fuel last p = .ok (last1, curr) ∧
        ((∃ pre post, l = pre ++ curr :: post ∧ Fits m size curr ∧
            (∀ b ∈ pre, ¬ Fits m size b) ∧ last1 = pre.getLastD last) ∨
          (curr = 0 ∧ (∀ b ∈ l, ¬ Fits m size b) ∧ last1 = l.getLastD last)) := by
  intro l
  induction l with
  | nil =>
    intro fuel last p hc hf
    have hp : p = 0 := hc
    subst hp
    obtain ⟨f, rfl⟩ : ∃ f, fuel = f + 1 := ⟨fuel - 1, by simp at hf; omega⟩
    exact ⟨last, 0, by simp [firstFitLoop], Or.inr ⟨rfl, by simp, rfl⟩⟩
  | cons a t ih =>
    intro fuel last p hc hf
    obtain ⟨hp, ha, ht⟩ := hc
    subst hp
    obtain ⟨f, rfl⟩ : ∃ f, fuel = f + 1 := ⟨fuel - 1, by simp at hf; omega⟩
    have hf2 : t.length < f := by simp at hf; omega
    by_cases hfit : Fits m size p
    · refine ⟨last, p, ?_, Or.inl ⟨[], t, rfl, hfit, by simp, rfl⟩⟩
      have h1 : (m p).free = true := hfit.1
      have h2 : size ≤ (m p).size := hfit.2
      simp [firstFitLoop, h1, h2]
    · obtain ⟨last1, curr, hrun, hres⟩ := ih f p (m p).next ht hf2
      refine ⟨last1, curr, ?_, ?_⟩
      · have h3 : ¬ ((m p).free = true ∧ (m p).size ≥ size) := hfit
        simp only [firstFitLoop]
        rw [if_pos ⟨ha, h3⟩]
        exact hrun
      · rcases hres with ⟨pre, post, hl, hc1, hpre, hlast⟩ | ⟨hz, hall, hlast⟩
        · refine Or.inl ⟨p :: pre, post, by rw [hl]; rfl, hc1, ?_, ?_⟩
          · intro b hb
            rcases List.mem_cons.1 hb with rfl | hb
            · exact hfit
            · exact hpre b hb
          · rw [hlast]; cases pre <;> simp [List.getLastD]
        · refine Or.inr ⟨hz, ?_, ?_⟩
          · intro b hb
            rcases List.mem_cons.1 hb with rfl | hb
            · exact hfit
            · exact hall b hb
          · rw [hlast]; cases t <;> simp [List.getLastD]

/-! The search loops on a chain. -/

theorem bestFitLoop_chain (m : Nat → Block) (size : Nat) :
    ∀ (l : List Nat) (fuel last s w p : Nat), IsChain m p l → l.length < fuel →
      ∃ last1 win, bestFitLoop m size fuel last s w p = .ok (last1, win) ∧
        last1 = l.getLastD last ∧
        ((∃ pre post, l = pre ++ win :: post ∧ Fits m size win ∧
            ∀ b ∈ post, ¬ Fits m size b) ∨
          (win = w ∧ ∀ b ∈ l, ¬ Fits m size b)) := by
  intro l
  induction l with
  | nil =>
    intro fuel last s w p hc hf
    have hp : p = 0 := hc
    subst hp
    obtain ⟨f, rfl⟩ : ∃ f, fuel = f + 1 := ⟨fuel - 1, by simp at hf; omega⟩
    exact ⟨last, w, by simp [bestFitLoop], rfl, Or.inr ⟨rfl, by simp⟩⟩
  | cons a t ih =>
    intro fuel last s w p hc hf
    obtain ⟨hp, ha, ht⟩ := hc
    subst hp
    obtain ⟨f, rfl⟩ : ∃ f, fuel = f + 1 := ⟨fuel - 1, by simp at hf; omega⟩
    have hf2 : t.length < f := by simp at hf; omega
    have hs : (if s ≥ (m p).size then (m p).size else s) ≤ (m p).size := by
      split <;> omega
    by_cases hfit : Fits m size p
    · obtain ⟨last1, win, hrun, hlast, hres⟩ :=
        ih f p (if s ≥ (m p).size then (m p).size else s) p (m p).next ht hf2
      refine ⟨last1, win, ?_, ?_, ?_⟩
      · have h3 : (m p).free = true ∧ (m p).size ≥ size := hfit
        simp only [bestFitLoop]
        have h4 : ((m p).free = true ∧ (m p).size ≥ size) ∧
            (if s ≥ (m p).size then (m p).size else s) ≤ (m p).size := ⟨h3, hs⟩
        rw [if_pos ha, if_pos h4]
        exact hrun
      · rw [hlast]; cases t <;> simp [List.getLastD]
      · rcases hres with ⟨pre, post, hl, hc1, hpost⟩ | ⟨hw, hall⟩
        · exact Or.inl ⟨p :: pre, post, by rw [hl]; rfl, hc1, hpost⟩
        · exact Or.inl ⟨[], t, by rw [hw]; rfl, by rw [hw]; exact hfit, hall⟩
    · obtain ⟨last1, win, hrun, hlast, hres⟩ :=
        ih f p (if s ≥ (m p).size then (m p).size else s) w (m p).next ht hf2
      refine ⟨last1, win, ?_, ?_, ?_⟩
      · have h3 : ¬ (((m p).free = true ∧ (m p).size ≥ size) ∧
            (if s ≥ (m p).size then (m p).size else s) ≤ (m p).size) := fun h => hfit h.1
        simp only [bestFitLoop]
        rw [if_pos ha, if_neg h3]
        exact hrun
      · rw [hlast]; cases t <;> simp [List.getLastD]
      · rcases hres with ⟨pre, post, hl, hc1, hpost⟩ | ⟨hw, hall⟩
        · exact Or.inl ⟨p :: pre, post, by rw [hl]; rfl, hc1, hpost⟩
        · refine Or.inr ⟨hw, ?_⟩
          intro b hb
          rcases List.mem_cons.1 hb with rfl | hb
          · exact hfit
          · exact hall b hb

theorem worstFitLoop_chain (m : Nat → Block) (size : Nat) :
    ∀ (l : List Nat) (fuel last s w p : Nat), IsChain m p l → l.length < fuel →
      ∃ last1 win, worstFitLoop m size fuel last s w p = .ok (last1, win) ∧
        ((∃ pre post, l = pre ++ win :: post ∧ Fits m size win ∧
            (∀ b ∈ post, ¬ Fits m size b) ∧ last1 = win) ∨
          (win = w ∧ (∀ b ∈ l, ¬ Fits m size b) ∧ last1 = last)) := by
  intro l
  induction l with
  | nil =>
    intro fuel last s w p hc hf
    have hp : p = 0 := hc
    subst hp
    obtain ⟨f, rfl⟩ : ∃ f, fuel = f + 1 := ⟨fuel - 1, by simp at hf; omega⟩
    exact ⟨last, w, by simp [worstFitLoop], Or.inr ⟨rfl, by simp, rfl⟩⟩
  | cons a t ih =>
    intro fuel last s w p hc hf
    obtain ⟨hp, ha, ht⟩ := hc
    subst hp
    obtain ⟨f, rfl⟩ : ∃ f, fuel = f + 1 := ⟨fuel - 1, by simp at hf; omega⟩
    have hf2 : t.length < f := by simp at hf; omega
    have hs : (if s ≤ (m p).size then (m p).size else s) ≥ (m p).size := by
      split <;> omega
    by_cases hfit : Fits m size p
    · obtain ⟨last1, win, hrun, hres⟩ :=
        ih f p (if s ≤ (m p).size then (m p).size else s) p (m p).next ht hf2
      refine ⟨last1, win, ?_, ?_⟩
      · have h3 : (m p).free = true ∧ (m p).size ≥ size := hfit
        simp only [worstFitLoop]
        have h4 : ((m p).free = true ∧ (m p).size ≥ size) ∧
            (if s ≤ (m p).size then (m p).size else s) ≥ (m p).size := ⟨h3, hs⟩
        rw [if_pos ha, if_pos h4]
        exact hrun
      · rcases hres with ⟨pre, post, hl, hc1, hpost, hlast⟩ | ⟨hw, hall, hlast⟩
        · exact Or.inl ⟨p :: pre, post, by rw [hl]; rfl, hc1, hpost, hlast⟩
        · exact Or.inl ⟨[], t, by rw [hw]; rfl, by rw [hw]; exact hfit, hall,
            by rw [hlast, hw]⟩
    · obtain ⟨last1, win, hrun, hres⟩ :=
        ih f last (if s ≤ (m p).size then (m p).size else s) w (m p).next ht hf2
      refine ⟨last1, win, ?_, ?_⟩
      · have h3 : ¬ (((m p).free = true ∧ (m p).size ≥ size) ∧
            (if s ≤ (m p).size then (m p).size else s) ≥ (m p).size) := fun h => hfit h.1
        simp only [worstFitLoop]
        rw [if_pos ha, if_neg h3]
        exact hrun
      · rcases hres with ⟨pre, post, hl, hc1, hpost, hlast⟩ | ⟨hw, hall, hlast⟩
        · exact Or.inl ⟨p :: pre, post, by rw [hl]; rfl, hc1, hpost, hlast⟩
        · refine Or.inr ⟨hw, ?_, hlast⟩
          intro b hb
          rcases List.mem_cons.1 hb with rfl | hb
          · exact hfit
          · exact hall b hb

/-- The arithmetic of `ALIGN4` on `size_t`: for `1 ≤ n ≤ 2 ^ 64 - 4` the value
`ALIGN4(n)` is the least multiple of 4 that is at least `n`, it lies between
`n` and `n + 3` and equals `n` when `n` is a multiple of 4; and
`ALIGN4(0) = 0`. -/
theorem ALIGN4_least_multiple :
    (∀ n : Nat, 1 ≤ n → n ≤ 18446744073709551612 →
      ALIGN4 n % 4 = 0 ∧ n ≤ ALIGN4 n ∧ ALIGN4 n ≤ n + 3 ∧
      (∀ m : Nat, m % 4 = 0 → n ≤ m → ALIGN4 n ≤ m) ∧
      (n % 4 = 0 → ALIGN4 n = n)) ∧
    ALIGN4 0 = 0 := by
  refine ⟨?_, by decide⟩
  intro n h1 h2
  simp only [ALIGN4, SIZE_MOD]
  refine ⟨by omega, by omega, by omega, ?_, by omega⟩
  intro m hm hnm
  omega

theorem BLOCK_HEADER_BLOCK_DATA (h b : Nat) (hb : b < SIZE_MOD) :
    BLOCK_HEADER h (BLOCK_DATA h b) = b := by
  simp only [SIZE_MOD] at hb
  simp only [BLOCK_HEADER, BLOCK_DATA, toSize]
  omega

/-! The first-fit scenario, step by step. -/

theorem scenario_first_malloc (f h brk0 limit : Nat) (hb : 0 < brk0)
    (hl : brk0 + 2 * h + 300 ≤ limit) (hlim : limit < SBRK_FAILED) :
    ∃ s1, malloc h .firstFit (f + 3) 100 (emptyHeap brk0 limit) = .ok (brk0 + h, s1) ∧
      s1.freeList = brk0 ∧ s1.brk = brk0 + (h + 100) ∧ s1.limit = limit ∧ s1.num_grows = 1 ∧
      (s1.mem brk0).size = 100 ∧ (s1.mem brk0).next = 0 ∧ (s1.mem brk0).free = false := by
  have e100 : ALIGN4 100 = 100 := by decide
  simp only [SBRK_FAILED] at hlim
  have hm1 : (h + 100) % SIZE_MOD = h + 100 := Nat.mod_eq_of_lt (by simp only [SIZE_MOD]; omega)
  have hs1 : brk0 + (h + 100) ≤ limit := by omega
  have hs0 : brk0 ≤ limit := by omega
  have hne : brk0 ≠ SBRK_FAILED := by simp only [SBRK_FAILED]; omega
  have hb0 : brk0 ≠ 0 := by omega
  simp [malloc, emptyHeap, e100, findFreeBlock, firstFitLoop, growHeap, sbrk, hm1, hs1, hs0, hne,
    BLOCK_DATA, hb0, setFree, setNext, setSize]

theorem scenario_second_malloc (f h brk0 limit : Nat) (hb : 0 < brk0)
    (hl : brk0 + 2 * h + 300 ≤ limit) (hlim : limit < SBRK_FAILED) (s1 : Heap)
    (h1 : s1.freeList = brk0) (h2 : s1.brk = brk0 + (h + 100)) (h3 : s1.limit = limit)
    (h4 : s1.num_grows = 1) (h5 : (s1.mem brk0).size = 100) (h6 : (s1.mem brk0).next = 0)
    (h7 : (s1.mem brk0).free = false) :
    ∃ s2, malloc h .firstFit (f + 3) 200 s1 = .ok (brk0 + (h + 100) + h, s2) ∧
      s2.freeList = brk0 ∧ s2.num_grows = 2 ∧
      (s2.mem brk0).size = 100 ∧ (s2.mem brk0).next = brk0 + (h + 100) ∧
      (s2.mem brk0).free = false ∧
      (s2.mem (brk0 + (h + 100))).next = 0 ∧ (s2.mem (brk0 + (h + 100))).free = false := by
  have e200 : ALIGN4 200 = 200 := by decide
  simp only [SBRK_FAILED] at hlim
  have hm2 : (h + 200) % SIZE_MOD = h + 200 := Nat.mod_eq_of_lt (by simp only [SIZE_MOD]; omega)
  have hs2 : brk0 + (h + 100) + (h + 200) ≤ limit := by omega
  have hs0 : brk0 + (h + 100) ≤ limit := by omega
  have hne : brk0 + (h + 100) ≠ SBRK_FAILED := by simp only [SBRK_FAILED]; omega
  have hb0 : brk0 ≠ 0 := by omega
  simp [malloc, e200, findFreeBlock, firstFitLoop, growHeap, sbrk, hm2, hs2, hs0, hne,
    BLOCK_DATA, hb0, setFree, setNext, setSize, h1, h2, h3, h4, h5, h6, h7]

theorem scenario_free (f h brk0 : Nat) (hb : 0 < brk0) (hlt : brk0 < SIZE_MOD) (s2 : Heap)
    (h1 : s2.freeList = brk0) (h4 : s2.num_grows = 2)
    (h5 : (s2.mem brk0).size = 100) (h6 : (s2.mem brk0).next = brk0 + (h + 100))
    (h7 : (s2.mem brk0).free = false)
    (h8 : (s2.mem (brk0 + (h + 100))).next = 0) (h9 : (s2.mem (brk0 + (h + 100))).free = false) :
    ∃ s3, free h (f + 3) (brk0 + h) s2 = .ok s3 ∧
      s3.freeList = brk0 ∧ s3.num_grows = 2 ∧
      (s3.mem brk0).size = 100 ∧ (s3.mem brk0).free = true := by
  have hb0 : brk0 ≠ 0 := by omega
  have hhd : BLOCK_HEADER h (brk0 + h) = brk0 := BLOCK_HEADER_BLOCK_DATA h brk0 hlt
  simp [free, hhd, coalesceLoop, setFree, setNext, setSize, h1, h4, h5, h6, h7, h8, h9, hb0]

theorem scenario_third_malloc (f h brk0 : Nat) (hb : 0 < brk0) (s3 : Heap)
    (h1 : s3.freeList = brk0) (h4 : s3.num_grows = 2)
    (h5 : (s3.mem brk0).size = 100) (h7 : (s3.mem brk0).free = true) :
    ∃ s4, malloc h .firstFit (f + 3) 50 s3 = .ok (brk0 + h, s4) ∧ s4.num_grows = 2 := by
  have e50 : ALIGN4 50 = 52 := by decide
  have hb0 : brk0 ≠ 0 := by omega
  by_cases hsplit : 48 > h
  · simp [malloc, e50, findFreeBlock, firstFitLoop, BLOCK_DATA, hb0, h1, h4, h5, h7, SIZE_MOD,
      hsplit, splitBlock]
  · simp [malloc, e50, findFreeBlock, firstFitLoop, BLOCK_DATA, hb0, h1, h4, h5, h7, SIZE_MOD,
      hsplit]

/-! The claims. -/

/-- Claim C1, refuted on the code: when `malloc` splits the free block at
header address `A` of size `C` for the aligned request `S`, it computes the
address of the remainder header from `next->size` before that field is
lowered to `S`, so the header is written at `A + C + h` and not at
`A + h + S`.  Here `h = 32`, `A = 4096`, `C = 100`, `S = 52`: the remainder
header lands at `4228`, on the header of the live block that follows, and
the header cell at `4180 = A + h + S` is left as it was. -/
theorem split_header_lands_past_old_payload :
    ∃ s0 s, run 32 .firstFit 8 [.malloc 100, .malloc 8, .free 4128]
        (emptyHeap 4096 65536) = .ok s0 ∧
      IsChain s0.mem s0.freeList [4096, 4228] ∧
      (s0.mem 4096).free = true ∧ (s0.mem 4096).size = 100 ∧
      (s0.mem 4228).free = false ∧ (s0.mem 4228).size = 8 ∧
      ALIGN4 50 = 52 ∧
      malloc 32 .firstFit 8 50 s0 = .ok (4096 + 32, s) ∧
      (s.mem 4096).size = 52 ∧
      (s.mem 4096).next = 4096 + 100 + 32 ∧
      (s.mem 4096).next ≠ 4096 + 32 + 52 ∧
      s.mem (4096 + 32 + 52) = s0.mem (4096 + 32 + 52) ∧
      (s.mem 4228).free = true ∧ (s.mem 4228).size = 16 := by
  refine ⟨_, _, rfl, ?_, ?_, ?_, ?_, ?_, ?_, rfl, ?_⟩ <;> decide

/-- Claim C2, refuted on the code: after `malloc(100)`, `malloc(8)`,
`free` of the first pointer and `malloc(50)` under first-fit (`h = 32`, break
at 4096) the head block at 4096 has size 52 and its `next` is 4228, so
`4096 + h + 52 = 4180` is not the address of the following block; that
following block is its own `next`, so the chain is cyclic. -/
theorem chain_contiguity_broken_by_split :
    ∃ s, run 32 .firstFit 8 [.malloc 100, .malloc 8, .free 4128, .malloc 50]
        (emptyHeap 4096 65536) = .ok s ∧
      s.freeList = 4096 ∧ (s.mem 4096).size = 52 ∧ (s.mem 4096).next = 4228 ∧
      4096 + 32 + (s.mem 4096).size ≠ (s.mem 4096).next ∧
      (s.mem 4228).next = 4228 := by
  refine ⟨_, rfl, ?_⟩
  decide

/-- Claim C3, refuted on the code: the best-fit scan keeps the last free
block that is large enough, not the smallest one.  On the chain
`[4096: free, 8 bytes; 4136: allocated, 8 bytes; 4176: free, 100 bytes]`
(reached by three allocations and two releases) a request of 8 bytes gets
the 100-byte block at 4176 although the free block at 4096 has 8 bytes. -/
theorem bestFit_returns_last_fitting_block :
    ∃ s0 last, run 32 .bestFit 8 [.malloc 8, .malloc 8, .malloc 100, .free 4128, .free 4208]
        (emptyHeap 4096 65536) = .ok s0 ∧
      IsChain s0.mem s0.freeList [4096, 4136, 4176] ∧
      (s0.mem 4096).free = true ∧ (s0.mem 4096).size = 8 ∧
      (s0.mem 4136).free = false ∧
      (s0.mem 4176).free = true ∧ (s0.mem 4176).size = 100 ∧
      findFreeBlock .bestFit 8 s0.freeList 8 s0 = .ok (last, 4176, s0) := by
  refine ⟨_, _, rfl, ?_, ?_, ?_, ?_, ?_, ?_, rfl⟩ <;> decide

/-- Claim C4, refuted on the code: the worst-fit scan keeps the last free
block that is large enough, not the largest one.  On the chain
`[4096: free, 100 bytes; 4328: allocated, 68 bytes; 4428: free, 8 bytes]`
(reached by the calls below) a request of 8 bytes gets the 8-byte block at
4428 although the free block at 4096 has 100 bytes. -/
theorem worstFit_returns_last_fitting_block :
    ∃ s0 last, run 32 .worstFit 8
        [.malloc 200, .malloc 68, .malloc 8, .free 4360, .free 4128, .malloc 100, .malloc 68,
          .free 4128, .free 4460]
        (emptyHeap 4096 65536) = .ok s0 ∧
      IsChain s0.mem s0.freeList [4096, 4328, 4428] ∧
      (s0.mem 4096).free = true ∧ (s0.mem 4096).size = 100 ∧
      (s0.mem 4328).free = false ∧
      (s0.mem 4428).free = true ∧ (s0.mem 4428).size = 8 ∧
      findFreeBlock .worstFit 8 s0.freeList 8 s0 = .ok (last, 4428, s0) := by
  refine ⟨_, _, rfl, ?_, ?_, ?_, ?_, ?_, ?_, rfl⟩ <;> decide

/-- Claim C5, refuted on the code: under worst-fit a failed search leaves
`*last` at the head of the chain (`malloc` initialises it to `freeList` and
the loop stores to it only when it finds a candidate), so `growHeap` links
the new block behind the head.  With the chain `[4096, 4136]` the third
`malloc(8)` hands `growHeap` the block 4096, not the tail 4136, and the chain
afterwards is `[4096, 4176]`: the old block 4136 is no longer in it. -/
theorem worstFit_growth_attaches_to_head :
    ∃ s0 s, run 32 .worstFit 8 [.malloc 8, .malloc 8] (emptyHeap 4096 65536) = .ok s0 ∧
      IsChain s0.mem s0.freeList [4096, 4136] ∧
      findFreeBlock .worstFit 8 s0.freeList 8 s0 = .ok (4096, 0, s0) ∧
      malloc 32 .worstFit 8 8 s0 = .ok (4176 + 32, s) ∧
      IsChain s.mem s.freeList [4096, 4176] ∧
      s.num_grows = s0.num_grows + 1 := by
  refine ⟨_, _, rfl, ?_, rfl, rfl, ?_⟩ <;> decide

/-- Claim C6, refuted on the code: when the system cannot extend the arena,
`sbrk(0)` still returns the current break while the second `sbrk` returns
`(void *)-1`, so `assert(curr == prev)` fails before the test for the
sentinel is reached: `growHeap`, and `malloc` under every policy, abort
instead of returning `NULL`.  Here the arena holds one allocated block and
the break cannot move beyond 4136. -/
theorem growth_failure_aborts :
    ∃ s0, run 32 .firstFit 8 [.malloc 8] (emptyHeap 4096 4136) = .ok s0 ∧
      IsChain s0.mem s0.freeList [4096] ∧ (s0.mem 4096).free = false ∧
      s0.brk = 4136 ∧ s0.limit = 4136 ∧
      sbrk 0 s0 = (4136, s0) ∧ (sbrk (32 + 100) s0).1 = SBRK_FAILED ∧
      growHeap 32 4096 100 s0 = .error .assertFailed ∧
      ∀ pol, malloc 32 pol 8 100 s0 = .error .assertFailed := by
  refine ⟨_, rfl, ?_, ?_, ?_, ?_, rfl, ?_, rfl, ?_⟩
  · decide
  · decide
  · decide
  · decide
  · decide
  · intro pol
    cases pol <;> rfl

/-- Claim C7: on every chain, with fuel for the whole walk, first-fit
`findFreeBlock` returns without changing the state, and its result is either
the first block in chain order that is free and at least as large as the
request (no block before it is), or `NULL` when the chain has no such block.
And from an empty heap, `malloc(100)`, `malloc(200)`, `free` of the first
pointer and `malloc(50)` return from the last call the first pointer and
leave `num_grows` at 2, whatever the header size and the initial break. -/
theorem firstFit_first_fitting_block :
    (∀ (s : Heap) (l : List Nat) (fuel last size : Nat),
      IsChain s.mem s.freeList l → l.length < fuel →
      ∃ last1 curr, findFreeBlock .firstFit fuel last size s = .ok (last1, curr, s) ∧
        ((∃ pre post, l = pre ++ curr :: post ∧
            ((s.mem curr).free = true ∧ (s.mem curr).size ≥ size) ∧
            ∀ b ∈ pre, ¬ ((s.mem b).free = true ∧ (s.mem b).size ≥ size)) ∨
          (curr = 0 ∧ ∀ b ∈ l, ¬ ((s.mem b).free = true ∧ (s.mem b).size ≥ size)))) ∧
    (∀ (h brk0 limit fuel : Nat),
      0 < brk0 → brk0 + 2 * h + 300 ≤ limit → limit < SBRK_FAILED → 3 ≤ fuel →
      ∃ p1 p2 s1 s2 s3 s4,
        malloc h .firstFit fuel 100 (emptyHeap brk0 limit) = .ok (p1, s1) ∧
        malloc h .firstFit fuel 200 s1 = .ok (p2, s2) ∧
        free h fuel p1 s2 = .ok s3 ∧
        malloc h .firstFit fuel 50 s3 = .ok (p1, s4) ∧
        p1 ≠ 0 ∧ s4.num_grows = 2) := by
  constructor
  · intro s l fuel last size hchain hfuel
    obtain ⟨last1, curr, hrun, hres⟩ :=
      firstFitLoop_chain s.mem size l fuel last s.freeList hchain hfuel
    refine ⟨last1, curr, by simp [findFreeBlock, hrun], ?_⟩
    rcases hres with ⟨pre, post, hl, hfit, hpre, _⟩ | ⟨hz, hall, _⟩
    · exact Or.inl ⟨pre, post, hl, hfit, hpre⟩
    · exact Or.inr ⟨hz, hall⟩
  · intro h brk0 limit fuel hb hl hlim hfuel
    obtain ⟨f, rfl⟩ : ∃ f, fuel = f + 3 := ⟨fuel - 3, by omega⟩
    obtain ⟨s1, hm1, a1, a2, a3, a4, a5, a6, a7⟩ := scenario_first_malloc f h brk0 limit hb hl hlim
    obtain ⟨s2, hm2, b1, b2, b3, b4, b5, b6, b7⟩ :=
      scenario_second_malloc f h brk0 limit hb hl hlim s1 a1 a2 a3 a4 a5 a6 a7
    have hlt : brk0 < SIZE_MOD := by
      simp only [SBRK_FAILED] at hlim
      simp only [SIZE_MOD]
      omega
    obtain ⟨s3, hm3, c1, c2, c3, c4⟩ := scenario_free f h brk0 hb hlt s2 b1 b2 b3 b4 b5 b6 b7
    obtain ⟨s4, hm4, d1⟩ := scenario_third_malloc f h brk0 hb s3 c1 c2 c3 c4
    exact ⟨brk0 + h, brk0 + (h + 100) + h, s1, s2, s3, s4, hm1, hm2, hm3, hm4, by omega, d1⟩

/-- Witness for C7: first-fit on the three-block sample arena with a request
of 100 bytes, and the scenario with 32-byte headers and the break at 4096. -/
theorem firstFit_first_fitting_block_witness :
    (IsChain sampleHeap.mem sampleHeap.freeList [4096, 4136, 4176] ∧
      ∃ last1 curr, findFreeBlock .firstFit 4 0 100 sampleHeap = .ok (last1, curr, sampleHeap) ∧
        ((∃ pre post, [4096, 4136, 4176] = pre ++ curr :: post ∧
            ((sampleHeap.mem curr).free = true ∧ (sampleHeap.mem curr).size ≥ 100) ∧
            ∀ b ∈ pre, ¬ ((sampleHeap.mem b).free = true ∧ (sampleHeap.mem b).size ≥ 100)) ∨
          (curr = 0 ∧ ∀ b ∈ [4096, 4136, 4176],
            ¬ ((sampleHeap.mem b).free = true ∧ (sampleHeap.mem b).size ≥ 100)))) ∧
    (∃ p1 p2 s1 s2 s3 s4,
        malloc 32 .firstFit 3 100 (emptyHeap 4096 65536) = .ok (p1, s1) ∧
        malloc 32 .firstFit 3 200 s1 = .ok (p2, s2) ∧
        free 32 3 p1 s2 = .ok s3 ∧
        malloc 32 .firstFit 3 50 s3 = .ok (p1, s4) ∧
        p1 ≠ 0 ∧ s4.num_grows = 2) :=
  ⟨⟨by decide,
      firstFit_first_fitting_block.1 sampleHeap [4096, 4136, 4176] 4 0 100 (by decide)
        (by decide)⟩,
    firstFit_first_fitting_block.2 32 4096 65536 3 (by decide) (by decide) (by decide)
      (by decide)⟩

/-- Claim C8: under each of the four policies (for next-fit with the cursor
`NULL` or at a block of the chain), on every chain and for every request
size, `findFreeBlock` returns when given fuel for the whole walk, and a
result other than `NULL` is a block of the chain that is free and at least as
large as the request. -/
theorem findFreeBlock_sound (pol : Policy) (s : Heap) (l : List Nat) (fuel last size : Nat)
    (hchain : IsChain s.mem s.freeList l) (hfuel : l.length < fuel)
    (hcursor : pol = .nextFit → s.Next_Fit = 0 ∨ s.Next_Fit ∈ l) :
    ∃ last1 curr s1, findFreeBlock pol fuel last size s = .ok (last1, curr, s1) ∧
      (curr ≠ 0 → curr ∈ l ∧ (s.mem curr).free = true ∧ (s.mem curr).size ≥ size) := by
  cases pol with
  | firstFit =>
    obtain ⟨last1, curr, hrun, hres⟩ :=
      firstFitLoop_chain s.mem size l fuel last s.freeList hchain hfuel
    refine ⟨last1, curr, s, by simp [findFreeBlock, hrun], fun hne => ?_⟩
    rcases hres with ⟨pre, post, hl, hfit, _, _⟩ | ⟨hz, _, _⟩
    · exact ⟨by rw [hl]; simp, hfit.1, hfit.2⟩
    · exact absurd hz hne
  | bestFit =>
    obtain ⟨last1, curr, hrun, _, hres⟩ :=
      bestFitLoop_chain s.mem size l fuel last
        (if s.freeList ≠ 0 then (s.mem s.freeList).size else INT_MAX_SZ) 0 s.freeList
        hchain hfuel
    refine ⟨last1, curr, s, by simp only [findFreeBlock, hrun], fun hne => ?_⟩
    rcases hres with ⟨pre, post, hl, hfit, _⟩ | ⟨hz, _⟩
    · exact ⟨by rw [hl]; simp, hfit.1, hfit.2⟩
    · exact absurd hz hne
  | worstFit =>
    obtain ⟨last1, curr, hrun, hres⟩ :=
      worstFitLoop_chain s.mem size l fuel last
        (if s.freeList ≠ 0 then (s.mem s.freeList).size else INT_MIN_SZ) 0 s.freeList
        hchain hfuel
    refine ⟨last1, curr, s, by simp only [findFreeBlock, hrun], fun hne => ?_⟩
    rcases hres with ⟨pre, post, hl, hfit, _, _⟩ | ⟨hz, _, _⟩
    · exact ⟨by rw [hl]; simp, hfit.1, hfit.2⟩
    · exact absurd hz hne
  | nextFit =>
    rcases hcursor rfl with hnf | hnf
    · obtain ⟨last1, curr, hrun, hres⟩ :=
        firstFitLoop_chain s.mem size l fuel last s.freeList hchain hfuel
      refine ⟨last1, curr, { s with Next_Fit := curr },
        by simp [findFreeBlock, hnf, hrun], fun hne => ?_⟩
      rcases hres with ⟨pre, post, hl, hfit, _, _⟩ | ⟨hz, _, _⟩
      · exact ⟨by rw [hl]; simp, hfit.1, hfit.2⟩
      · exact absurd hz hne
    · have hx0 : s.Next_Fit ≠ 0 := isChain_ne_zero hchain _ hnf
      obtain ⟨l1, l2, hl, hc2⟩ := isChain_suffix hchain hnf
      have hlen : (s.Next_Fit :: l2).length < fuel := by
        have : l.length = l1.length + (l2.length + 1) := by rw [hl]; simp
        simp only [List.length_cons]; omega
      obtain ⟨last1, curr, hrun, hres⟩ :=
        firstFitLoop_chain s.mem size (s.Next_Fit :: l2) fuel last s.Next_Fit hc2 hlen
      refine ⟨last1, curr, { s with Next_Fit := curr },
        by simp [findFreeBlock, hx0, hrun], fun hne => ?_⟩
      rcases hres with ⟨pre, post, hl2, hfit, _, _⟩ | ⟨hz, _, _⟩
      · refine ⟨?_, hfit.1, hfit.2⟩
        rw [hl, hl2]; simp
      · exact absurd hz hne

/-- Witness for C8: next-fit on the three-block sample arena with the cursor
at the allocated block 4136 and a request of 8 bytes. -/
theorem findFreeBlock_sound_witness :
    IsChain sampleHeap.mem sampleHeap.freeList [4096, 4136, 4176] ∧
    ∃ last1 curr s1,
      findFreeBlock .nextFit 4 0 8 { sampleHeap with Next_Fit := 4136 } = .ok (last1, curr, s1) ∧
      (curr ≠ 0 → curr ∈ [4096, 4136, 4176] ∧ (sampleHeap.mem curr).free = true ∧
        (sampleHeap.mem curr).size ≥ 8) :=
  ⟨by decide,
    findFreeBlock_sound .nextFit { sampleHeap with Next_Fit := 4136 } [4096, 4136, 4176] 4 0 8
      (by decide) (by decide) (fun _ => by decide)⟩

/-- Claim C10, refuted on the code: the split keeps the old size in an `int`,
so for a capacity `C` that does not fit 31 bits the remainder does not get
the size `C - S - h`.  With `h = 32`, a free block of `C = 2 ^ 31` bytes and
the aligned request `S = 4`, the block handed out has size 4 and the
remainder is given the size `2 ^ 64 - 2 ^ 31 - 36`, not `2 ^ 31 - 36`. -/
theorem split_remainder_size_truncated :
    ∃ s0 s, run 32 .firstFit 8 [.malloc 2147483648, .malloc 8, .free 4128]
        (emptyHeap 4096 4294967296) = .ok s0 ∧
      (s0.mem 4096).free = true ∧ (s0.mem 4096).size = 2147483648 ∧
      ALIGN4 4 = 4 ∧ 2147483648 - 4 > 32 ∧
      malloc 32 .firstFit 8 4 s0 = .ok (4096 + 32, s) ∧
      (s.mem 4096).size = 4 ∧
      (s.mem (s.mem 4096).next).free = true ∧
      (s.mem (s.mem 4096).next).size = 18446744071562067932 ∧
      (s.mem (s.mem 4096).next).size ≠ 2147483648 - 4 - 32 ∧
      s.num_splits = s0.num_splits + 1 ∧ s.num_blocks = s0.num_blocks + 1 := by
  refine ⟨_, _, rfl, ?_, ?_, ?_, ?_, rfl, ?_⟩ <;> decide


/-! A chain has no repeated block. -/

theorem isChain_unique {m : Nat → Block} :
    ∀ (l1 l2 : List Nat) (p : Nat), IsChain m p l1 → IsChain m p l2 → l1 = l2 := by
  intro l1
  induction l1 with
  | nil =>
    intro l2 p h1 h2
    cases l2 with
    | nil => rfl
    | cons b t =>
      have hp : p = 0 := h1
      obtain ⟨hb, hb0, _⟩ := h2
      exact absurd (hb.symm.trans hp) hb0
  | cons a t ih =>
    intro l2 p h1 h2
    obtain ⟨ha, ha0, ht⟩ := h1
    cases l2 with
    | nil =>
      have hp : p = 0 := h2
      exact absurd (ha.symm.trans hp) ha0
    | cons b t2 =>
      obtain ⟨hb, _, ht2⟩ := h2
      have hab : a = b := ha.symm.trans hb
      subst hab
      rw [ih t2 _ ht ht2]

theorem isChain_nodup {m : Nat → Block} :
    ∀ (l : List Nat) (p : Nat), IsChain m p l → l.Nodup := by
  intro l
  induction l with
  | nil => intro p _; exact List.nodup_nil
  | cons a t ih =>
    intro p hc
    obtain ⟨_, _, ht⟩ := hc
    refine List.nodup_cons.2 ⟨?_, ih _ ht⟩
    intro hmem
    obtain ⟨l1, l2, hl, hc2⟩ := isChain_suffix ht hmem
    have h3 : IsChain m (m a).next l2 := hc2.2.2
    have h4 : t = l2 := isChain_unique t l2 _ ht h3
    have h5 : t.length = l1.length + (l2.length + 1) := by rw [hl]; simp
    rw [h4] at h5
    omega

/-! The coalescing loop. -/

theorem coalesceLoop_never_asserts (h : Nat) :
    ∀ (fuel temp curr : Nat) (s : Heap),
      coalesceLoop h fuel temp curr s ≠ .error .assertFailed := by
  intro fuel
  induction fuel with
  | zero => intro temp curr s; simp [coalesceLoop]
  | succ f ih =>
    intro temp curr s
    simp only [coalesceLoop]
    split
    · split
      · exact ih _ _ _
      · exact ih _ _ _
    · simp

/-! The claims, continued. -/

/-- Claim C12, refuted on the code: under worst-fit the third allocation on
an empty heap is linked behind the head of the chain (the defect of claim
C5), so the second block is no longer in the chain when the three blocks are
released.  With `h = 32` and three requests of 8 bytes the chain left by the
three releases is the single free block at 4096 of size `8 + 8 + h = 48`,
not `8 + 8 + 8 + 2 * h = 88`. -/
theorem worstFit_three_releases_lose_a_block :
    ∃ s1 s2 s3 s,
      malloc 32 .worstFit 8 8 (emptyHeap 4096 65536) = .ok (4128, s1) ∧
      malloc 32 .worstFit 8 8 s1 = .ok (4168, s2) ∧
      malloc 32 .worstFit 8 8 s2 = .ok (4208, s3) ∧
      IsChain s3.mem s3.freeList [4096, 4176] ∧
      run 32 .worstFit 8 [.free 4128, .free 4168, .free 4208] s3 = .ok s ∧
      IsChain s.mem s.freeList [4096] ∧
      (s.mem 4096).free = true ∧ (s.mem 4096).size = 48 ∧
      (s.mem 4096).size ≠ 8 + 8 + 8 + 2 * 32 := by
  refine ⟨_, _, _, _, rfl, rfl, rfl, ?_, rfl, ?_⟩ <;> decide

/-- Claim C13, refuted on the code: after `malloc(100)`, `malloc(200)`,
`free` of the first pointer and `malloc(50)` (first-fit, `h = 32`) the split
defect of claim C1 has made the block at 4228 free and its own `next`.  The
`free` that follows merges it into the block at 4096 (size 100) and its sweep
stops at the test `temp != curr->next`, leaving the free block 4096 linked to
the free block 4228; running the sweep again merges once more: the size at
4096 becomes 148, `num_coalesces` grows and `num_blocks` shrinks by one. -/
theorem second_sweep_merges_again_on_cycle :
    ∃ s0 sa s1 s2,
      run 32 .firstFit 8 [.malloc 100, .malloc 200, .free 4128] (emptyHeap 4096 65536) = .ok s0 ∧
      malloc 32 .firstFit 8 50 s0 = .ok (4128, sa) ∧
      free 32 8 4128 sa = .ok s1 ∧
      s1.freeList = 4096 ∧ (s1.mem 4096).free = true ∧ (s1.mem 4096).size = 100 ∧
      (s1.mem 4096).next = 4228 ∧ (s1.mem 4228).free = true ∧ (s1.mem 4228).next = 4228 ∧
      coalesceLoop 32 8 0 s1.freeList s1 = .ok s2 ∧
      (s2.mem 4096).size = 148 ∧
      s2.num_coalesces = s1.num_coalesces + 1 ∧ s2.num_blocks = s1.num_blocks - 1 := by
  refine ⟨_, _, _, _, rfl, rfl, rfl, ?_, ?_, ?_, ?_, ?_, ?_, rfl, ?_⟩ <;> decide

/-- Claim C14: in every state `malloc(0)` returns `NULL`; the header memory,
the chain head, the next-fit cursor, the program break and every counter are
as before (only the `atexit` registration flag may be set). -/
theorem malloc_zero_returns_null (h : Nat) (pol : Policy) (fuel : Nat) (s : Heap) :
    ∃ s1, malloc h pol fuel 0 s = .ok (0, s1) ∧
      s1.mem = s.mem ∧ s1.freeList = s.freeList ∧ s1.Next_Fit = s.Next_Fit ∧
      s1.brk = s.brk ∧ s1.limit = s.limit ∧
      s1.num_mallocs = s.num_mallocs ∧ s1.num_requested = s.num_requested ∧
      s1.num_reuses = s.num_reuses ∧ s1.num_grows = s.num_grows ∧
      s1.num_splits = s.num_splits ∧ s1.num_blocks = s.num_blocks ∧
      s1.max_heap = s.max_heap ∧ s1.num_frees = s.num_frees ∧
      s1.num_coalesces = s.num_coalesces := by
  have hz : ALIGN4 0 = 0 := by decide
  simp [malloc, hz]

/-- Claim C15: `free(NULL)` returns with the whole state unchanged.  For a
pointer `p` other than `NULL`, `free(p)` fails its assertion exactly when the
header `h` bytes before `p` is marked free, whatever the fuel; and the state
in which the assertion fails is the state in which `free` was called: no
header field and no counter has been modified.  (`freeOutcome` is `free` with
the state at the failing assertion kept.) -/
theorem free_asserts_iff_block_free :
    (∀ (h fuel : Nat) (s : Heap),
      free h fuel 0 s = .ok s ∧ freeOutcome h fuel 0 s = .returned s) ∧
    (∀ (h fuel p : Nat) (s : Heap), p ≠ 0 →
      (free h fuel p s = .error .assertFailed ↔ (s.mem (BLOCK_HEADER h p)).free = true) ∧
      ((∃ s1, freeOutcome h fuel p s = .aborted s1) ↔
        (s.mem (BLOCK_HEADER h p)).free = true) ∧
      (∀ s1, freeOutcome h fuel p s = .aborted s1 →
        s1 = s ∧ s1.mem = s.mem ∧ s1.num_frees = s.num_frees ∧
          s1.num_coalesces = s.num_coalesces ∧ s1.num_blocks = s.num_blocks)) ∧
    (∀ (h fuel p : Nat) (s : Heap), (freeOutcome h fuel p s).toExcept = free h fuel p s) := by
  have hlink : ∀ (h fuel p : Nat) (s : Heap),
      (freeOutcome h fuel p s).toExcept = free h fuel p s := by
    intro h fuel p s
    unfold freeOutcome free
    by_cases hp : p = 0
    · simp [hp, Outcome.toExcept]
    · rw [if_neg hp, if_neg hp]
      dsimp only
      by_cases hflag : (s.mem (BLOCK_HEADER h p)).free ≠ false
      · rw [if_pos hflag, if_pos hflag]
        rfl
      · rw [if_neg hflag, if_neg hflag]
        cases hrun : coalesceLoop h fuel 0
            (if s.freeList ≠ 0 then s.freeList else BLOCK_HEADER h p)
            { s with mem := setFree s.mem (BLOCK_HEADER h p) true,
                     num_frees := s.num_frees + 1 } with
        | ok s1 => rfl
        | error e => cases e <;> rfl
  have hab : ∀ (h fuel p : Nat) (s s1 : Heap), p ≠ 0 →
      freeOutcome h fuel p s = .aborted s1 →
      (s.mem (BLOCK_HEADER h p)).free = true ∧ s1 = s := by
    intro h fuel p s s1 hp hrun
    have hl := hlink h fuel p s
    rw [hrun] at hl
    unfold freeOutcome at hrun
    rw [if_neg hp] at hrun
    dsimp only at hrun
    by_cases hflag : (s.mem (BLOCK_HEADER h p)).free ≠ false
    · rw [if_pos hflag] at hrun
      refine ⟨by simpa using hflag, ?_⟩
      injection hrun with e
      exact e.symm
    · exfalso
      have hf : (s.mem (BLOCK_HEADER h p)).free = false := by simpa using hflag
      simp only [Outcome.toExcept, free, hp, if_false, hf, ne_eq, not_true_eq_false] at hl
      exact coalesceLoop_never_asserts h _ _ _ _ hl.symm
  refine ⟨?_, ?_, hlink⟩
  · intro h fuel s
    simp [free, freeOutcome]
  · intro h fuel p s hp
    refine ⟨?_, ?_, ?_⟩
    · constructor
      · intro hrun
        by_contra hflag
        have hf : (s.mem (BLOCK_HEADER h p)).free = false := by
          cases hb : (s.mem (BLOCK_HEADER h p)).free with
          | true => exact absurd hb hflag
          | false => rfl
        simp only [free, hp, if_false, hf, ne_eq, not_true_eq_false] at hrun
        exact coalesceLoop_never_asserts h _ _ _ _ hrun
      · intro hflag
        simp [free, hp, hflag]
    · constructor
      · rintro ⟨s1, hrun⟩
        exact (hab h fuel p s s1 hp hrun).1
      · intro hflag
        exact ⟨s, by simp [freeOutcome, hp, hflag]⟩
    · intro s1 hrun
      obtain ⟨_, e⟩ := hab h fuel p s s1 hp hrun
      subst e
      exact ⟨rfl, rfl, rfl, rfl, rfl⟩

/-- Witness for C15: in the three-block sample arena the block at 4096 is
free, so releasing its payload pointer 4128 fails the assertion, in the state
of the call. -/
theorem free_asserts_iff_block_free_witness :
    4128 ≠ 0 ∧
    ((free 32 4 4128 sampleHeap = .error .assertFailed ↔
        (sampleHeap.mem (BLOCK_HEADER 32 4128)).free = true) ∧
      ((∃ s1, freeOutcome 32 4 4128 sampleHeap = .aborted s1) ↔
        (sampleHeap.mem (BLOCK_HEADER 32 4128)).free = true) ∧
      (∀ s1, freeOutcome 32 4 4128 sampleHeap = .aborted s1 →
        s1 = sampleHeap ∧ s1.mem = sampleHeap.mem ∧ s1.num_frees = sampleHeap.num_frees ∧
          s1.num_coalesces = sampleHeap.num_coalesces ∧
          s1.num_blocks = sampleHeap.num_blocks)) ∧
    (sampleHeap.mem (BLOCK_HEADER 32 4128)).free = true ∧
    freeOutcome 32 4 4128 sampleHeap = .aborted sampleHeap :=
  ⟨by decide, free_asserts_iff_block_free.2.1 32 4 4128 sampleHeap (by decide), by decide, rfl⟩

/-- Claim C16, refuted on the code: `malloc` adds to `num_requested` after it
has replaced `size` by `ALIGN4(size)`, so the counter grows by the rounded
size.  On the empty heap `malloc(1)` succeeds and raises `num_requested` from
0 to 4, not to 1. -/
theorem num_requested_counts_rounded_size :
    ∃ s, malloc 32 .firstFit 8 1 (emptyHeap 4096 65536) = .ok (4128, s) ∧
      (emptyHeap 4096 65536).num_requested = 0 ∧
      s.num_requested = 4 ∧ s.num_requested ≠ (emptyHeap 4096 65536).num_requested + 1 := by
  refine ⟨_, rfl, ?_⟩
  decide

/-- Claim C17: with the cursor `Next_Fit` at a block `x` of the chain,
next-fit `findFreeBlock` returns (given fuel for the walk) the first block at
or after `x` in chain order that is free and at least as large as the
request, or `NULL` when no block from `x` to the end of the chain is, whatever
the blocks before `x` are; the cursor is left at the result.  With the cursor
`NULL` the result is that of first-fit from the head. -/
theorem nextFit_resumes_at_cursor :
    (∀ (s : Heap) (l1 l2 : List Nat) (x fuel last size : Nat),
      IsChain s.mem s.freeList (l1 ++ x :: l2) → s.Next_Fit = x →
      (l1 ++ x :: l2).length < fuel →
      ∃ last1 curr,
        findFreeBlock .nextFit fuel last size s = .ok (last1, curr, { s with Next_Fit := curr }) ∧
        ((∃ pre post, x :: l2 = pre ++ curr :: post ∧
            ((s.mem curr).free = true ∧ (s.mem curr).size ≥ size) ∧
            ∀ b ∈ pre, ¬ ((s.mem b).free = true ∧ (s.mem b).size ≥ size)) ∨
          (curr = 0 ∧ ∀ b ∈ x :: l2, ¬ ((s.mem b).free = true ∧ (s.mem b).size ≥ size)))) ∧
    (∀ (s : Heap) (fuel last size last1 curr : Nat), s.Next_Fit = 0 →
      (findFreeBlock .firstFit fuel last size s = .ok (last1, curr, s) ↔
        findFreeBlock .nextFit fuel last size s =
          .ok (last1, curr, { s with Next_Fit := curr })) ∧
      (findFreeBlock .firstFit fuel last size s = .error .outOfFuel ↔
        findFreeBlock .nextFit fuel last size s = .error .outOfFuel)) := by
  constructor
  · intro s l1 l2 x fuel last size hchain hcur hfuel
    have hx : x ∈ l1 ++ x :: l2 := by simp
    have hx0 : x ≠ 0 := isChain_ne_zero hchain x hx
    obtain ⟨k1, k2, hl, hc2⟩ := isChain_suffix hchain hx
    have hnd : (l1 ++ x :: l2).Nodup := isChain_nodup _ _ hchain
    have hk : k2 = l2 := by
      have hx1 : x ∉ l1 := by
        intro e
        have := List.nodup_append.1 hnd
        exact this.2.2 e (List.mem_cons_self x l2)
      have hx2 : x ∉ k1 := by
        intro e
        rw [hl] at hnd
        have := List.nodup_append.1 hnd
        exact this.2.2 e (List.mem_cons_self x k2)
      have hsplit := List.append_eq_append_iff.1 hl
      rcases hsplit with ⟨c, h1, h2⟩ | ⟨c, h1, h2⟩
      · cases c with
        | nil => simp at h2; exact h2.symm
        | cons d c2 =>
          simp at h2
          exfalso; apply hx2; rw [h1, h2.1]; simp
      · cases c with
        | nil => simp at h2; exact h2
        | cons d c2 =>
          simp at h2
          exfalso; apply hx1; rw [h1, ← h2.1]; simp
    subst hk
    have hlen : (x :: k2).length < fuel := by
      have : (l1 ++ x :: k2).length = l1.length + (k2.length + 1) := by simp
      simp only [List.length_cons]; omega
    obtain ⟨last1, curr, hrun, hres⟩ :=
      firstFitLoop_chain s.mem size (x :: k2) fuel last x hc2 hlen
    refine ⟨last1, curr, by simp [findFreeBlock, hcur, hx0, hrun], ?_⟩
    rcases hres with ⟨pre, post, hl2, hfit, hpre, _⟩ | ⟨hz, hall, _⟩
    · exact Or.inl ⟨pre, post, hl2, hfit, hpre⟩
    · exact Or.inr ⟨hz, hall⟩
  · intro s fuel last size last1 curr hcur
    simp only [findFreeBlock, hcur, if_true]
    cases hrun : firstFitLoop s.mem size fuel last s.freeList with
    | error e =>
      cases e <;> simp
    | ok r =>
      obtain ⟨a, b⟩ := r
      simp only [Except.ok.injEq, Prod.mk.injEq, and_true, reduceCtorEq, iff_self, and_true]
      constructor
      · rintro ⟨rfl, rfl⟩; exact ⟨rfl, rfl, rfl⟩
      · rintro ⟨rfl, rfl, _⟩; exact ⟨rfl, rfl⟩

/-- Witness for C17: in `cursorHeap` the cursor is at 4136, the free block
4096 before it would fit a request of 8 bytes and no block from 4136 on does;
and the sample arena with the cursor `NULL`. -/
theorem nextFit_resumes_at_cursor_witness :
    (IsChain cursorHeap.mem cursorHeap.freeList ([4096] ++ 4136 :: [4176]) ∧
      cursorHeap.Next_Fit = 4136 ∧
      ((cursorHeap.mem 4096).free = true ∧ (cursorHeap.mem 4096).size ≥ 8)) ∧
    (∃ last1 curr,
      findFreeBlock .nextFit 4 0 8 cursorHeap =
        .ok (last1, curr, { cursorHeap with Next_Fit := curr }) ∧
      ((∃ pre post, 4136 :: [4176] = pre ++ curr :: post ∧
          ((cursorHeap.mem curr).free = true ∧ (cursorHeap.mem curr).size ≥ 8) ∧
          ∀ b ∈ pre, ¬ ((cursorHeap.mem b).free = true ∧ (cursorHeap.mem b).size ≥ 8)) ∨
        (curr = 0 ∧ ∀ b ∈ 4136 :: [4176],
          ¬ ((cursorHeap.mem b).free = true ∧ (cursorHeap.mem b).size ≥ 8)))) ∧
    ((findFreeBlock .firstFit 4 0 8 sampleHeap = .ok (0, 4096, sampleHeap) ↔
        findFreeBlock .nextFit 4 0 8 sampleHeap =
          .ok (0, 4096, { sampleHeap with Next_Fit := 4096 })) ∧
      (findFreeBlock .firstFit 4 0 8 sampleHeap = .error .outOfFuel ↔
        findFreeBlock .nextFit 4 0 8 sampleHeap = .error .outOfFuel)) :=
  ⟨⟨by decide, by decide, by decide⟩,
    nextFit_resumes_at_cursor.1 cursorHeap [4096] [4176] 4136 4 0 8 (by decide) (by decide)
      (by decide),
    nextFit_resumes_at_cursor.2 sampleHeap 4 0 8 0 4096 (by decide)⟩

/-- Claim C18, refuted on the code: `malloc` can overwrite the header of a
live allocation.  After `malloc(100)`, `malloc(200)` and `free` of the first
pointer (first-fit, `h = 32`, break at 4096) the block at 4228 is in the
chain, allocated, of size 200; `malloc(50)` then splits the block at 4096 and
writes the remainder header at `4096 + 100 + h = 4228` (the defect of claim
C1): the block at 4228 is now marked free, has size 16 and is its own
`next`. -/
theorem malloc_overwrites_live_block :
    ∃ s0 s, run 32 .firstFit 8 [.malloc 100, .malloc 200, .free 4128]
        (emptyHeap 4096 65536) = .ok s0 ∧
      IsChain s0.mem s0.freeList [4096, 4228] ∧
      (s0.mem 4228).free = false ∧ (s0.mem 4228).size = 200 ∧
      malloc 32 .firstFit 8 50 s0 = .ok (4128, s) ∧
      (s.mem 4228).free = true ∧ (s.mem 4228).size = 16 ∧ (s.mem 4228).next = 4228 := by
  refine ⟨_, _, rfl, ?_, ?_, ?_, rfl, ?_⟩ <;> decide

end HeapManagement
